import Mathlib

/-!
Shallow embedding of `src/lib/duduckdb/duduckdb.py` (package `duduckdb`).

The program reports aggregate disk usage from a parquet index of filesystem
metadata.  The index is loaded into an in-memory SQL table `index` with one
row per filesystem entry; the pipeline then derives a depth column from the
path strings, walks the directories depth by depth, aggregates `sum(size)` /
`count(size)` per directory prefix (optionally per user), sorts and prints.

Modelling choices (each noted again at the definition it concerns):
* the SQL table `index` is a `List Row`; a SQL query is a pure function on
  that list.  Row order of the list models the engine's scan order.
* SQL `NULL` in the `size` column is `Option.none`; `sum` ignores nulls and
  returns `none` when no non-null value is in scope, `count(size)` counts the
  non-null values.
* machine numbers: sizes, uids and depths are unbounded `Int` (Python ints);
  the float arithmetic of `sizeof_fmt` is modelled exactly over `ℚ`, and the
  Python `.1f` rendering by round-half-to-even to one decimal digit.
* Python exceptions are an `Except PyErr` result: `AssertionError`,
  `NotImplementedError` and `TypeError` are the constructors; `print` side
  effects are not modelled (functions return the strings or lists the code
  builds), and `pwd.getpwuid` enters as a total resolution map (see
  `PyErr`).
-/

namespace Duduckdb

/-- Python exceptions that the duduckdb code raises: `assert` statements
raise `AssertionError` (the message is the text after the comma, "" for a
bare assert); `DUDB.query_metrics` raises `NotImplementedError` for an
unknown metric; and the comparator classes of `DUDB.sort_list` raise
`TypeError` when `sorted` compares two values no `<` is defined on, such as
a `None` metric value against a number.  `pwd.getpwuid` can also raise
`KeyError` for a uid with no password-database entry; that resolution map
enters this embedding as the total parameter `resolveUser`, so the KeyError
failure is a stated assumption, not a modelled path. -/
inductive PyErr where
  | assertionError (msg : String)
  | notImplementedError (msg : String)
  | typeError (msg : String)
deriving DecidableEq

deriving instance DecidableEq for Except

/-- One row of the `index` table built from the parquet file: the columns the
code reads.  `is_dir` models the SQL comparison `is_dir = 1` as `true`;
`size` is nullable (SQL NULL = `none`); `uid` is the owning user id; `tstamp`
is the value of the one timestamp column named by `timestamp_type`
(`atime` by default), `none` for SQL NULL. -/
structure Row where
  path : String
  is_dir : Bool
  size : Option Int
  uid : Int
  tstamp : Option String
deriving DecidableEq

/-- A row of the `index` table after `report_du` has added and filled the
`depth` column. -/
structure RowD extends Row where
  depth : Int
deriving DecidableEq

/-- Python truthiness of an optional string argument (`if older_than:`):
`None` and the empty string are falsy. -/
def truthy : Option String → Bool
  | none => false
  | some s => !(s == "")

/-- Lexicographic codepoint order on character lists, comparing characters
by codepoint as Python and SQL compare strings. -/
def strLtChars : List Char → List Char → Bool
  | [], [] => false
  | [], _ :: _ => true
  | _ :: _, [] => false
  | a :: as, b :: bs =>
    if a.toNat < b.toNat then true
    else if b.toNat < a.toNat then false
    else strLtChars as bs

/-- Lexicographic codepoint order on strings: the order in which the SQL
engine compares the (textual) timestamp bounds of the queries
`{timestamp_type} < '{older_than}'` / `> '{newer_than}'` with the column
values.  ISO timestamp strings compare chronologically under it. -/
def strLtB (a b : String) : Bool := strLtChars a.toList b.toList

/-- SQL `LIKE` matching of a pattern against a whole string: `%` matches any
sequence of characters, `_` any single character, anything else itself.  The
code only ever builds the patterns `'{basedir}%'` and `'%'`. -/
def likeMatch : List Char → List Char → Bool
  | [], s => s.isEmpty
  | '%' :: ps, s => (s.tails).any (fun t => likeMatch ps t)
  | '_' :: _, [] => false
  | '_' :: ps, _ :: s => likeMatch ps s
  | _ :: _, [] => false
  | p :: ps, c :: s => p == c && likeMatch ps s

/-- SQL `path like '{patt}'`. -/
def sqlLike (patt : String) (s : String) : Bool := likeMatch patt.toList s.toList

/-- The `where` clause that `DUDB.query_metrics` builds: path matches the
LIKE pattern, plus the optional timestamp filters (compared against the
`timestamp_type` column, NULL comparisons are false) and the optional
`uid = {uid}` filter.  A falsy (`None` or empty) bound adds no filter, as
`if older_than:` / `if newer_than:` skip it; the uid filter is added whenever
`uid is not None`. -/
def matchesFilters (patt : String) (older newer : Option String) (uidF : Option Int)
    (r : Row) : Bool :=
  sqlLike patt r.path
  && (if truthy older then
        (match r.tstamp with
         | none => false
         | some t => strLtB t (older.getD ""))
      else true)
  && (if truthy newer then
        (match r.tstamp with
         | none => false
         | some t => strLtB (newer.getD "") t)
      else true)
  && (match uidF with
      | none => true
      | some u => r.uid == u)

/-- SQL `sum(size)` over a list of rows: NULL sizes are ignored; the result
is NULL (`none`) when no non-null size is in scope. -/
def sumSize (rows : List Row) : Option Int :=
  let vs := rows.filterMap Row.size
  if vs.isEmpty then none else some vs.sum

/-- SQL `count(size)` over a list of rows: the number of non-null sizes. -/
def countSize (rows : List Row) : Int := (rows.filterMap Row.size).length

/-- `DUDB.query_metrics` (duduckdb.py lines 279-307): for each metric in
order it issues `select sum(size)`/`count(size) from index where ...` with
the LIKE-pattern, timestamp and uid filters, collecting the single values;
a metric other than `'size'` / `'inodes'` raises `NotImplementedError`. -/
def query_metrics (tbl : List Row) (metrics : List String) (patt : String)
    (older newer : Option String) (uidF : Option Int) :
    Except PyErr (List (Option Int)) :=
  match metrics with
  | [] => .ok []
  | m :: ms =>
    let rows := tbl.filter (matchesFilters patt older newer uidF)
    if m = "size" then
      match query_metrics tbl ms patt older newer uidF with
      | .error e => .error e
      | .ok vs => .ok (sumSize rows :: vs)
    else if m = "inodes" then
      match query_metrics tbl ms patt older newer uidF with
      | .error e => .error e
      | .ok vs => .ok (some (countSize rows) :: vs)
    else .error (.notImplementedError ("Unknown metric " ++ m))

/-- The value list that `query_metrics` returns when every metric is known,
written as the specification states it: per metric and in the order of the
metrics list, `sum(size)` for `'size'` and `count(size)` for `'inodes'`,
over the rows passing the filters. -/
def aggPure (tbl : List Row) (metrics : List String) (patt : String)
    (older newer : Option String) (uidF : Option Int) : List (Option Int) :=
  metrics.map (fun m =>
    let rows := tbl.filter (matchesFilters patt older newer uidF)
    if m = "size" then sumSize rows else some (countSize rows))

lemma query_metrics_ok (tbl : List Row) (metrics : List String) (patt : String)
    (older newer : Option String) (uidF : Option Int)
    (hm : ∀ m ∈ metrics, m = "size" ∨ m = "inodes") :
    query_metrics tbl metrics patt older newer uidF
      = .ok (aggPure tbl metrics patt older newer uidF) := by
  induction metrics with
  | nil => rfl
  | cons m ms ih =>
    have hms : ∀ x ∈ ms, x = "size" ∨ x = "inodes" := fun x hx => hm x (List.mem_cons_of_mem m hx)
    have ihh := ih hms
    rcases hm m (List.mem_cons_self m ms) with h | h <;>
      simp [query_metrics, aggPure, h, ihh, List.map_cons]

/-- Round a rational to the nearest integer, ties to the even integer: how
Python's `.1f` format rounds the last kept digit. -/
def roundHalfToEven (q : ℚ) : ℤ :=
  let f : ℤ := ⌊q⌋
  let r : ℚ := q - (f : ℚ)
  if r < 1 / 2 then f
  else if 1 / 2 < r then f + 1
  else if f % 2 = 0 then f else f + 1

/-- Python's `f"{num:.1f}"` on an exact rational: sign, integer digits, one
decimal digit, rounding half to even. -/
def formatFixed1 (q : ℚ) : String :=
  let n : ℤ := roundHalfToEven (q * 10)
  let sign : String := if q < 0 then "-" else ""
  sign ++ toString (n.natAbs / 10) ++ "." ++ toString (n.natAbs % 10)

/-- Unit prefixes of `sizeof_fmt` (duduckdb.py lines 31-36). -/
def sizeofUnits (si_units : Bool) : List String :=
  if si_units then ["", "k", "M", "G", "T", "P", "E"]
  else ["", "Ki", "Mi", "Gi", "Ti", "Pi", "Ei"]

/-- Scale factor of `sizeof_fmt`: `10.0**3` with SI units, `2.0**10`
otherwise. -/
def sizeofFac (si_units : Bool) : ℚ := if si_units then 10 ^ 3 else 2 ^ 10

/-- The `for unit in units:` loop of `sizeof_fmt` (duduckdb.py lines 37-41):
format at the current unit once `abs(num) < fac`, else divide by `fac` and
move to the next unit; after the last unit fall back to `units[-1]`
(the `last` argument). -/
def fmtGo (fac : ℚ) (sfx last : String) : ℚ → List String → String
  | num, [] => formatFixed1 num ++ last ++ sfx
  | num, u :: us =>
    if |num| < fac then formatFixed1 num ++ u ++ sfx
    else fmtGo fac sfx last (num / fac) us

/-- `sizeof_fmt` (duduckdb.py lines 29-41): human-readable rendering of a
number of bytes.  The float arithmetic is modelled exactly over `ℚ` and the
`formatter` argument is fixed at its default `'.1f'`
(see `formatFixed1`). -/
def sizeof_fmt (num : ℚ) (si_units : Bool) (sfx : String) : String :=
  fmtGo (sizeofFac si_units) sfx ((sizeofUnits si_units).getLastD "") num
    (sizeofUnits si_units)

/-- Python's `f"{s:24}"`-style left-justified padding to a minimum width. -/
def padRight (s : String) (n : Nat) : String :=
  s ++ String.mk (List.replicate (n - s.length) ' ')

/-- Rendering of one metric value by `print_usage_single` (duduckdb.py lines
50-57): `None` and `0` render as `'-'`, otherwise the value, human-readable
through `sizeof_fmt` when asked. -/
def renderCell (human_readable si_units : Bool) (size : Option Int) (sfx : String) :
    String :=
  match size with
  | none => "-"
  | some n =>
    if n = 0 then "-"
    else if human_readable then sizeof_fmt (n : ℚ) si_units sfx
    else toString n

/-- `print_usage_single` (duduckdb.py lines 44-59), as the line it prints:
the identifier padded to 24 columns, then one 16-column cell per
(size, suffix) pair of `zip(sizes, suffixes)`.  The bare
`assert len(sizes) == len(suffixes)` (only checked when `human_readable`)
is the `AssertionError ""` case.  The Python parameter named `prefix` is
`pre` here, and the `formatter` parameter is fixed at its default `'.1f'`
as in `sizeof_fmt`. -/
def print_usage_single (sizes : List (Option Int)) (identifier : String)
    (human_readable si_units : Bool) (suffixes : List String) (pre : String) :
    Except PyErr String :=
  if human_readable && !(sizes.length == suffixes.length) then
    .error (.assertionError "")
  else
    .ok (padRight (pre ++ identifier ++ ":") 24 ++
      String.join ((sizes.zip suffixes).map
        (fun p => " " ++ padRight (renderCell human_readable si_units p.1 p.2) 16)))

/-- Python `top_directory.rstrip(os.sep)` with `os.sep = '/'`: drop all
trailing slashes. -/
def rstripSep (s : String) : String :=
  String.mk ((s.toList.reverse.dropWhile (fun c => c == '/')).reverse)

/-- Number of occurrences of a character in a string (Python
`str.count` for a single-character needle). -/
def countChar (c : Char) (s : String) : Nat :=
  (s.toList.filter (fun x => x == c)).length

/-- SQL `replace(path, '/', '')`: remove every occurrence of the
character. -/
def replaceRemove (s : String) (c : Char) : String :=
  String.mk (s.toList.filter (fun x => !(x == c)))

/-- The depth value the SQL update assigns to one row (duduckdb.py lines
120-122): `len(path) - len(replace(path, '/', '')) - top_directory_depth`. -/
def sqlRowDepth (tdd : Int) (path : String) : Int :=
  (path.length : Int) - ((replaceRemove path '/').length : Int) - tdd

/-- The depth-column setup of `report_du` (duduckdb.py lines 114-127):
`top_directory_depth` counts the slashes of the top directory with trailing
separators stripped, minus one when the stripped string is empty; every row
gets `depth = len(path) - len(replace(path, '/', '')) - top_directory_depth`;
in the root-directory special case the rows with path `'.'` or `''` are then
set to depth 0. -/
def updateDepth (top : String) (tbl : List Row) : List RowD :=
  let stripped := rstripSep top
  let tdd0 : Int := (countChar '/' stripped : Int)
  let tdd : Int := if stripped = "" then tdd0 - 1 else tdd0
  let t1 := tbl.map (fun r => RowD.mk r (sqlRowDepth tdd r.path))
  if stripped = "" then
    t1.map (fun rd => if rd.path = "." ∨ rd.path = "" then { rd with depth := 0 } else rd)
  else t1

/-- A Python value held in a result tuple of `report_du`: the path and user
are strings, the depth an int, the metric values ints or `None`.  Equality
is Python `==` on these values (values of different types are unequal). -/
inductive Val where
  | vstr (s : String)
  | vint (n : Int)
  | vnull
deriving DecidableEq

/-- Python `<` on two result values where it is defined: ints by numeric
order, strings lexicographically by codepoint.  On `None` or a mixed-type
pair Python raises `TypeError`; this model returns `false` there and the
theorems about sorting carry a well-typedness hypothesis under which that
case is never compared (it is also the case in which the program itself
would die in `sorted`, not return). -/
def Val.lt : Val → Val → Bool
  | .vint a, .vint b => decide (a < b)
  | .vstr a, .vstr b => decide (a < b)
  | _, _ => false

/-- The metric value of a result tuple: SQL NULL becomes Python `None`. -/
def optToVal : Option Int → Val
  | none => .vnull
  | some n => .vint n

/-- One result tuple `[basedir, username, depth] + sizes` of `report_du`. -/
def mkRow (basedir username : String) (depth : Int) (sizes : List (Option Int)) :
    List Val :=
  .vstr basedir :: .vstr username :: .vint depth :: sizes.map optToVal

/-- The key table `Sorter.__init__` builds (duduckdb.py lines 231-247): for
each sort key, its first index in the column list and whether it uses the
reversed comparator (`reversor`, for `'size'` and `'inodes'`) or the normal
one (`versor`); a key that is not a column raises the assertion. -/
def keysFor (columns sortby : List String) : Except PyErr (List (Nat × Bool)) :=
  match sortby with
  | [] => .ok []
  | k :: ks =>
    if columns.contains k then
      match keysFor columns ks with
      | .error e => .error e
      | .ok rest => .ok ((columns.indexOf k, k == "size" || k == "inodes") :: rest)
    else .error (.assertionError ("Impossible to sort by " ++ k ++
      ", it is not in the columns"))

/-- Comparison of two result tuples through their key lists, as Python
compares the lists of comparator objects `Sorter.sort` builds: walk the keys
in priority order, skip equal values, and at the first difference compare
with `reversor` (descending) or `versor` (ascending).  An index beyond the
tuple reads `vnull` (Python would raise `IndexError`; `report_du` always
builds tuples as long as the column list). -/
def keyLt (keys : List (Nat × Bool)) (a b : List Val) : Bool :=
  match keys with
  | [] => false
  | (i, rev) :: ks =>
    let x := a.getD i .vnull
    let y := b.getD i .vnull
    if x = y then keyLt ks a b
    else if rev then Val.lt y x else Val.lt x y

/-- Stable insertion of an element into a list ascending under the strict
comparison `lt`: the element goes before the first entry not strictly below
it, as Python's stable `sorted` places it. -/
def insertLt (lt : List Val → List Val → Bool) (x : List Val) :
    List (List Val) → List (List Val)
  | [] => [x]
  | y :: ys => if lt y x then y :: insertLt lt x ys else x :: y :: ys

/-- Stable sort under the strict comparison `lt`.  Python's `sorted` (Timsort)
is also stable and driven by `__lt__` alone, so the two agree whenever `lt`
is a strict weak order on the list's elements — which the well-typedness
hypotheses of the sorting theorems guarantee. -/
def sortLt (lt : List Val → List Val → Bool) : List (List Val) → List (List Val)
  | [] => []
  | x :: xs => insertLt lt x (sortLt lt xs)

/-- Whether Python can compare two result tuples through their key lists at
all: the comparator `__eq__` (plain `==`) walks the keys past equal values,
and the first differing pair is handed to `__lt__`, which is defined only on
two ints or two strings — on anything else (`None` against a number, mixed
types) Python raises `TypeError`. -/
def keyCmpDefined (keys : List (Nat × Bool)) (a b : List Val) : Bool :=
  match keys with
  | [] => true
  | (i, _) :: ks =>
    let x := a.getD i Val.vnull
    let y := b.getD i Val.vnull
    if x = y then keyCmpDefined ks a b
    else
      match x, y with
      | .vint _, .vint _ => true
      | .vstr _, .vstr _ => true
      | _, _ => false

/-- Every pair of the list is comparable under the key table. -/
def pairsDefined (keys : List (Nat × Bool)) : List (List Val) → Bool
  | [] => true
  | r :: rs => rs.all (fun s => keyCmpDefined keys r s) && pairsDefined keys rs

/-- `DUDB.sort_list` (duduckdb.py lines 209-277): sort the result tuples by
the `sortby` columns in priority order, descending for `'size'`/`'inodes'`
and ascending otherwise; a `sortby` entry that is not a column raises
`AssertionError`.  When `sorted` evaluates a comparison that is undefined
(first differing key values that are not two ints or two strings) Python
dies with `TypeError`; which of the incomparable pairs Timsort actually
compares is implementation-defined, so the model raises `TypeError` whenever
any pair of the list is incomparable, and returns the stable sort otherwise
(on a fully comparable list the two agree exactly). -/
def sort_list (results : List (List Val)) (columns sortby : List String) :
    Except PyErr (List (List Val)) :=
  match keysFor columns sortby with
  | .error e => .error e
  | .ok keys =>
    if pairsDefined keys results then .ok (sortLt (keyLt keys) results)
    else .error (.typeError "unsupported comparison between result values")

/-- Python `range(lo, hi + 1)` over ints, as a list. -/
def intRange (lo hi : Int) : List Int :=
  (List.range (hi + 1 - lo).toNat).map (fun i => lo + (i : Int))

/-- First-occurrence deduplication with an accumulator of already seen
values. -/
def dedupAux (seen : List Int) : List Int → List Int
  | [] => []
  | x :: xs => if seen.contains x then dedupAux seen xs else x :: dedupAux (x :: seen) xs

/-- SQL `select distinct uid from index where path like '{patt}'`
(duduckdb.py lines 158-160).  The engine does not fix an order for a
DISTINCT without ORDER BY; the model keeps first occurrence in row order. -/
def distinctUids (tbl : List Row) (patt : String) : List Int :=
  dedupAux [] ((tbl.filter (fun r => sqlLike patt r.path)).map Row.uid)

/-- The LIKE pattern `report_du` builds for a directory (duduckdb.py lines
146-150): `'%'` for the root directory `'.'`, else `'{basedir}%'`. -/
def patternOf (basedir : String) : String :=
  if basedir = "." then "%" else basedir ++ "%"

/-- SQL `select path from index where depth = {depth} and is_dir = 1 and
path like '{top_directory}%'` (duduckdb.py lines 141-144), in row order. -/
def subdirsAt (tbld : List RowD) (top : String) (d : Int) : List String :=
  (tbld.filter (fun r => r.depth == d && r.is_dir && sqlLike (top ++ "%") r.path)).map
    (fun r => r.path)

/-- The `for uid in uids:` loop of `report_du` (duduckdb.py lines 164-172):
one result tuple per distinct uid, with the metrics restricted to that uid
and the username resolved through `pwd.getpwuid(uid).pw_name`, modelled by
the ambient `resolveUser` function. -/
def userRows (tbl : List Row) (metrics : List String) (patt : String)
    (older newer : Option String) (resolveUser : Int → String)
    (basedir : String) (depth : Int) : List Int → Except PyErr (List (List Val))
  | [] => .ok []
  | u :: us =>
    match query_metrics tbl metrics patt older newer (some u) with
    | .error e => .error e
    | .ok sizes =>
      match userRows tbl metrics patt older newer resolveUser basedir depth us with
      | .error e => .error e
      | .ok rest => .ok (mkRow basedir (resolveUser u) depth sizes :: rest)

/-- The `for basedir in subdirectories:` loop of `report_du` (duduckdb.py
lines 145-172): for each directory an `'ALL'` tuple, followed, when
`per_user`, by one tuple per distinct uid with files under it. -/
def dirRows (tbl : List Row) (metrics : List String) (older newer : Option String)
    (per_user : Bool) (resolveUser : Int → String) (depth : Int) :
    List String → Except PyErr (List (List Val))
  | [] => .ok []
  | basedir :: bs =>
    match query_metrics tbl metrics (patternOf basedir) older newer none with
    | .error e => .error e
    | .ok sizes =>
      match (if per_user then
               userRows tbl metrics (patternOf basedir) older newer resolveUser
                 basedir depth (distinctUids tbl (patternOf basedir))
             else .ok []) with
      | .error e => .error e
      | .ok urows =>
        match dirRows tbl metrics older newer per_user resolveUser depth bs with
        | .error e => .error e
        | .ok rest => .ok ((mkRow basedir "ALL" depth sizes :: urows) ++ rest)

/-- The `for depth in range(min_depth, max_depth+1):` loop of `report_du`
(duduckdb.py lines 139-172). -/
def depthRows (tbld : List RowD) (tbl : List Row) (metrics : List String)
    (older newer : Option String) (per_user : Bool) (resolveUser : Int → String)
    (top : String) : List Int → Except PyErr (List (List Val))
  | [] => .ok []
  | d :: ds =>
    match dirRows tbl metrics older newer per_user resolveUser d (subdirsAt tbld top d) with
    | .error e => .error e
    | .ok block =>
      match depthRows tbld tbl metrics older newer per_user resolveUser top ds with
      | .error e => .error e
      | .ok rest => .ok (block ++ rest)

/-- The results list `report_du` accumulates before any sorting: the whole
directory walk in discovery order. -/
def duResults (tbl : List Row) (resolveUser : Int → String) (top : String)
    (per_user : Bool) (older newer : Option String) (min_depth max_depth : Int)
    (metrics : List String) : Except PyErr (List (List Val)) :=
  depthRows (updateDepth top tbl) tbl metrics older newer per_user resolveUser top
    (intRange min_depth max_depth)

/-- The required-column list of `report_du` (duduckdb.py lines 101-108):
`path`, `is_dir`, `size`, plus `uid` when `per_user` and the
`timestamp_type` column when an `older_than`/`newer_than` bound is given. -/
def reqCols (per_user : Bool) (older newer : Option String) (ts : String) :
    List String :=
  ["path", "is_dir", "size"] ++ (if per_user then ["uid"] else []) ++
    (if truthy older || truthy newer then [ts] else [])

/-- The up-front checks of `report_du` (duduckdb.py lines 101-112): when a
timestamp bound is given `timestamp_type` must be truthy, and every required
column must be among the index file's column labels. -/
def columnsCheck (labels : List String) (per_user : Bool)
    (older newer : Option String) (ts : String) : Except PyErr Unit :=
  if (truthy older || truthy newer) && ts == "" then
    .error (.assertionError "timestamp_type is required if older/newer_than is provided")
  else
    match (reqCols per_user older newer ts).find? (fun l => !(labels.contains l)) with
    | some l => .error (.assertionError ("Required column " ++ l ++ " is missing."))
    | none => .ok ()

/-- The sanity checks `report_du` runs before sorting (duduckdb.py lines
177-188), reached only when output is not suppressed. -/
def sortChecks (per_user : Bool) (min_depth max_depth : Int) (sort_by : List String) :
    Except PyErr Unit :=
  if sort_by.contains "user" then
    if !per_user then
      .error (.assertionError "When sorting by user, per_user has to be True")
    else if !(min_depth == 0) then
      .error (.assertionError "When sorting by user, min_depth has to be 0")
    else if !(min_depth == max_depth) then
      .error (.assertionError "When sorting by user, only a single depth can be considered, so min_depth has to be equal to max_depth")
    else .ok ()
  else if per_user then
    if sort_by.contains "depth" then .ok ()
    else .error (.assertionError "When reporting per user, sorting has to include depth")
  else .ok ()

/-- `DUDB.report_du` (duduckdb.py lines 96-207) as the results list it
returns and the exceptions it raises.  `tbl` is the in-memory `index` table,
`labels` the column labels `get_headers` reads from the parquet file,
`resolveUser` stands for `pwd.getpwuid(·).pw_name`.  Printing itself is not
modelled: the only error a print could raise is `print_usage_single`'s
length assert, and `report_du` always passes `len(metrics)` sizes and
suffixes, so it cannot fire.  When output is suppressed the accumulated
results are returned as they are; otherwise the sort-option asserts run and
the sorted results are returned.  `human_readable` and `si_units` only
affect the printed text. -/
def report_du (tbl : List Row) (labels : List String) (resolveUser : Int → String)
    (top_directory : String) (per_user : Bool) (older_than newer_than : Option String)
    (max_depth min_depth : Int) (metrics : List String)
    (human_readable si_units : Bool) (timestamp_type : String)
    (suppress_output : Bool) (sort_by : List String) :
    Except PyErr (List (List Val)) :=
  match columnsCheck labels per_user older_than newer_than timestamp_type with
  | .error e => .error e
  | .ok _ =>
    match duResults tbl resolveUser top_directory per_user older_than newer_than
        min_depth max_depth metrics with
    | .error e => .error e
    | .ok results =>
      if suppress_output then .ok results
      else
        match sortChecks per_user min_depth max_depth sort_by with
        | .error e => .error e
        | .ok _ => sort_list results (["path", "user", "depth"] ++ metrics) sort_by

/-- The results list in discovery order, written as the specification
describes it: depths in increasing order, the directories of each depth in
query order, and for each directory its `'ALL'` tuple followed, when
`per_user`, by one tuple per distinct uid under it, with the aggregates
restricted to that uid and the username resolved for it. -/
def specRows (tbl : List Row) (resolveUser : Int → String) (top : String)
    (per_user : Bool) (older newer : Option String) (min_depth max_depth : Int)
    (metrics : List String) : List (List Val) :=
  (intRange min_depth max_depth).flatMap (fun d =>
    (subdirsAt (updateDepth top tbl) top d).flatMap (fun b =>
      mkRow b "ALL" d (aggPure tbl metrics (patternOf b) older newer none) ::
        (if per_user then
          (distinctUids tbl (patternOf b)).map (fun u =>
            mkRow b (resolveUser u) d (aggPure tbl metrics (patternOf b) older newer (some u)))
        else [])))

/-- Collapse a metric value of 0 to `None`: `print_usage_single` renders the
two identically, which claim C8 states. -/
def zeroToNone (x : Option Int) : Option Int :=
  match x with
  | none => none
  | some n => if n = 0 then none else some n

/-- One sort-key column holds values of a single comparable Python type
across all result tuples: all ints or all strings.  Under this hypothesis
Python's `sorted` never raises `TypeError` and its comparisons form a strict
weak order, so its stable result is the one this model computes. -/
def colTyped (rows : List (List Val)) (i : ℕ) : Prop :=
  (∀ r ∈ rows, ∃ n, r.getD i Val.vnull = Val.vint n) ∨
  (∀ r ∈ rows, ∃ s, r.getD i Val.vnull = Val.vstr s)

/-- Every sort-key column is well typed over the given rows. -/
def wellTyped (rows : List (List Val)) (keys : List (ℕ × Bool)) : Prop :=
  ∀ p ∈ keys, colTyped rows p.1

/-- Sample index rows used by the concrete witnesses. -/
def rowA : Row := { path := "a", is_dir := true, size := some 3, uid := 7, tstamp := none }

/-- Second sample row: a file below `a` owned by another user. -/
def rowAB : Row := { path := "a/b", is_dir := false, size := some 5, uid := 8, tstamp := none }

/-- Third sample row: a second file below `a` owned by the first user. -/
def rowAC : Row := { path := "a/c", is_dir := false, size := some 11, uid := 7, tstamp := none }

/-- Sample username resolution for the witnesses, standing in for
`pwd.getpwuid`. -/
def sampleUser (u : Int) : String := if u = 7 then "alice" else "bob"

/-- Sample directory row whose subtree holds only NULL sizes, so its
`sum(size)` aggregate is NULL: sorting its result tuple by `size` against a
numeric one makes Python's `sorted` raise `TypeError`. -/
def rowN : Row := { path := "n", is_dir := true, size := none, uid := 7, tstamp := none }

lemma length_filter_eq_sub (l : List Char) (c : Char) :
    ((l.filter (fun x => x == c)).length : Int)
      = (l.length : Int) - ((l.filter (fun x => !(x == c))).length : Int) := by
  have h := List.length_eq_length_filter_add (l := l) (f := fun x => x == c)
  omega

lemma sqlRowDepth_eq_count (tdd : Int) (path : String) :
    sqlRowDepth tdd path = (countChar '/' path : Int) - tdd := by
  unfold sqlRowDepth replaceRemove countChar
  have h := length_filter_eq_sub path.toList '/'
  have hlen : (String.mk (path.toList.filter (fun x => !(x == '/')))).length
      = (path.toList.filter (fun x => !(x == '/'))).length := rfl
  have hlen2 : path.length = path.toList.length := rfl
  omega

/-- C1: for every metrics list containing only `'size'` and `'inodes'`,
`DUDB.query_metrics` returns, per metric and in the order of the metrics
list, the SQL aggregate over the rows of the index table whose path matches
the LIKE pattern and the optional timestamp and uid filters: `sum(size)` for
`'size'` and `count(size)` for `'inodes'`. -/
theorem c1_query_metrics_aggregates (tbl : List Row) (metrics : List String)
    (patt : String) (older newer : Option String) (uidF : Option Int)
    (hm : ∀ m ∈ metrics, m = "size" ∨ m = "inodes") :
    query_metrics tbl metrics patt older newer uidF
      = .ok (metrics.map (fun m =>
          let rows := tbl.filter (matchesFilters patt older newer uidF)
          if m = "size" then sumSize rows else some (countSize rows))) :=
  query_metrics_ok tbl metrics patt older newer uidF hm

/-- Witness for C1 at a concrete table and the metrics list
`["size", "inodes"]`. -/
theorem c1_witness :
    query_metrics [rowA, rowAB] ["size", "inodes"] "a%" none none none
      = .ok ((["size", "inodes"]).map (fun m =>
          let rows := [rowA, rowAB].filter (matchesFilters "a%" none none none)
          if m = "size" then sumSize rows else some (countSize rows))) :=
  c1_query_metrics_aggregates [rowA, rowAB] ["size", "inodes"] "a%" none none none
    (by decide)

/-- C2: after `DUDB.report_du` with top directory `top`, every row's depth
column equals the number of `'/'` characters in its path minus `D`, where
`D` is the number of `'/'` in `top` with trailing separators stripped,
except that when the stripped `top` is empty `D` is decremented by one and
the rows with path `'.'` or `''` are set to depth 0. -/
theorem c2_depth_column (top : String) (tbl : List Row) (r : RowD)
    (hr : r ∈ updateDepth top tbl) :
    r.depth =
      (if rstripSep top = "" then
        (if r.path = "." ∨ r.path = "" then 0
         else (countChar '/' r.path : Int) - ((countChar '/' (rstripSep top) : Int) - 1))
       else (countChar '/' r.path : Int) - (countChar '/' (rstripSep top) : Int)) := by
  unfold updateDepth at hr
  by_cases hs : rstripSep top = ""
  · simp only [hs, reduceIte, List.mem_map] at hr
    rcases hr with ⟨rd, ⟨row, _, rfl⟩, rfl⟩
    by_cases hp : row.path = "." ∨ row.path = ""
    · simp [hs, hp]
    · simp [hs, hp, sqlRowDepth_eq_count]
  · simp only [hs, reduceIte, List.mem_map] at hr
    rcases hr with ⟨row, _, rfl⟩
    simp [hs, sqlRowDepth_eq_count]

/-- Witness for C2: the depth of a concrete row under top directory
`"/data"`. -/
theorem c2_witness :
    (RowD.mk (Row.mk "/data/x/y" true (some 1) 0 none) 2).depth =
      (if rstripSep "/data" = "" then
        (if ((RowD.mk (Row.mk "/data/x/y" true (some 1) 0 none) 2)).path = "."
            ∨ ((RowD.mk (Row.mk "/data/x/y" true (some 1) 0 none) 2)).path = "" then 0
         else (countChar '/' ((RowD.mk (Row.mk "/data/x/y" true (some 1) 0 none) 2)).path : Int)
            - ((countChar '/' (rstripSep "/data") : Int) - 1))
       else (countChar '/' ((RowD.mk (Row.mk "/data/x/y" true (some 1) 0 none) 2)).path : Int)
          - (countChar '/' (rstripSep "/data") : Int)) :=
  c2_depth_column "/data" [Row.mk "/data/x/y" true (some 1) 0 none]
    (RowD.mk (Row.mk "/data/x/y" true (some 1) 0 none) 2) (by decide)

lemma div_div_pow (n fac : ℚ) (j : ℕ) : n / fac / fac ^ j = n / fac ^ (j + 1) := by
  rw [div_div, ← pow_succ']

lemma fmtGo_spec (fac : ℚ) (sfx last : String) (us : List String) :
    ∀ (n : ℚ) (k : ℕ) (hk : k < us.length),
      (∀ j, j < k → fac ≤ |n / fac ^ j|) → |n / fac ^ k| < fac →
      fmtGo fac sfx last n us = formatFixed1 (n / fac ^ k) ++ us.get ⟨k, hk⟩ ++ sfx := by
  induction us with
  | nil => intro n k hk; exact absurd hk (by simp)
  | cons u us ih =>
    intro n k hk hbefore hat
    match k with
    | 0 =>
      rw [pow_zero, div_one] at hat
      simp [fmtGo, hat, pow_zero]
    | k + 1 =>
      have h0 : fac ≤ |n| := by simpa using hbefore 0 (Nat.succ_pos k)
      have hbefore2 : ∀ j, j < k → fac ≤ |n / fac / fac ^ j| := by
        intro j hj
        rw [div_div_pow]
        exact hbefore (j + 1) (Nat.succ_lt_succ hj)
      have hat2 : |n / fac / fac ^ k| < fac := by rw [div_div_pow]; exact hat
      have := ih (n / fac) k (Nat.lt_of_succ_lt_succ hk) hbefore2 hat2
      unfold fmtGo
      rw [if_neg (not_lt.2 h0), this, div_div_pow]
      rfl

lemma fmtGo_fallback (fac : ℚ) (sfx last : String) (us : List String) :
    ∀ n : ℚ, (∀ j, j < us.length → fac ≤ |n / fac ^ j|) →
      fmtGo fac sfx last n us = formatFixed1 (n / fac ^ us.length) ++ last ++ sfx := by
  induction us with
  | nil => intro n _; simp [fmtGo, pow_zero]
  | cons u us ih =>
    intro n h
    have h0 : fac ≤ |n| := by simpa using h 0 (Nat.succ_pos us.length)
    have h2 : ∀ j, j < us.length → fac ≤ |n / fac / fac ^ j| := by
      intro j hj
      rw [div_div_pow]
      exact h (j + 1) (Nat.succ_lt_succ hj)
    unfold fmtGo
    rw [if_neg (not_lt.2 h0), ih (n / fac) h2, div_div_pow]
    rfl

/-- C6: `sizeof_fmt` scales the number by repeated division by the factor
(1000 with SI units, 1024 otherwise) and formats it at the first scale `k`
where the scaled absolute value is below the factor, followed by the k-th
unit prefix and the suffix. -/
theorem c6_sizeof_fmt_scaling (num : ℚ) (si_units : Bool) (sfx : String) (k : ℕ)
    (hk : k < (sizeofUnits si_units).length)
    (hbefore : ∀ j, j < k → sizeofFac si_units ≤ |num / sizeofFac si_units ^ j|)
    (hat : |num / sizeofFac si_units ^ k| < sizeofFac si_units) :
    sizeof_fmt num si_units sfx
      = formatFixed1 (num / sizeofFac si_units ^ k)
        ++ (sizeofUnits si_units).get ⟨k, hk⟩ ++ sfx :=
  fmtGo_spec (sizeofFac si_units) sfx ((sizeofUnits si_units).getLastD "")
    (sizeofUnits si_units) num k hk hbefore hat

/-- Witness for C6: 1500000 bytes with SI units land at scale 2, the `M`
prefix. -/
theorem c6_witness :
    sizeof_fmt 1500000 true "B"
      = formatFixed1 (1500000 / sizeofFac true ^ 2)
        ++ (sizeofUnits true).get ⟨2, by decide⟩ ++ "B" :=
  c6_sizeof_fmt_scaling 1500000 true "B" 2 (by decide)
    (by
      intro j hj
      interval_cases j <;> norm_num [sizeofFac, abs_of_nonneg])
    (by norm_num [sizeofFac, abs_of_nonneg])

/-- C10: `sizeof_fmt` is not injective across its overflow fallback: with
`si_units = False` every input of absolute value at least `1024 ^ 7` is
divided by `1024 ^ 7` yet labelled with the last prefix `Ei`, so the
distinct inputs `2 ^ 60` and `2 ^ 70` both render as `"1.0EiB"`. -/
theorem c10_fallback_not_injective :
    (∀ num : ℚ, (1024 : ℚ) ^ 7 ≤ |num| →
      sizeof_fmt num false "B" = formatFixed1 (num / 1024 ^ 7) ++ "Ei" ++ "B")
    ∧ sizeof_fmt ((2 : ℚ) ^ 60) false "B" = "1.0EiB"
    ∧ sizeof_fmt ((2 : ℚ) ^ 70) false "B" = "1.0EiB"
    ∧ (2 : ℚ) ^ 60 ≠ (2 : ℚ) ^ 70 := by
  refine ⟨?_, ?_, ?_, by norm_num⟩
  · intro num hnum
    have hfac : sizeofFac false = 1024 := by norm_num [sizeofFac]
    have hlen : (sizeofUnits false).length = 7 := by decide
    have hcond : ∀ j, j < (sizeofUnits false).length →
        sizeofFac false ≤ |num / sizeofFac false ^ j| := by
      intro j hj
      rw [hlen] at hj
      rw [hfac, abs_div, abs_pow, abs_of_nonneg (by norm_num : (0:ℚ) ≤ 1024),
        le_div_iff₀ (by positivity)]
      calc (1024 : ℚ) * 1024 ^ j = 1024 ^ (j + 1) := (pow_succ' 1024 j).symm
        _ ≤ 1024 ^ 7 := by
            apply pow_le_pow_right₀ (by norm_num : (1:ℚ) ≤ 1024) (by omega)
        _ ≤ |num| := hnum
    have := fmtGo_fallback (sizeofFac false) "B" ((sizeofUnits false).getLastD "")
      (sizeofUnits false) num hcond
    unfold sizeof_fmt
    rw [this, hlen, hfac]
    rfl
  · norm_num [sizeof_fmt, sizeofFac, sizeofUnits, fmtGo, formatFixed1,
      roundHalfToEven, abs_of_nonneg]
    rfl
  · norm_num [sizeof_fmt, sizeofFac, sizeofUnits, fmtGo, formatFixed1,
      roundHalfToEven, abs_of_nonneg]
    rfl

lemma renderCell_zeroToNone (hr si : Bool) (s : Option Int) (sfx : String) :
    renderCell hr si (zeroToNone s) sfx = renderCell hr si s sfx := by
  cases s with
  | none => rfl
  | some n =>
    by_cases hn : n = 0 <;> simp [zeroToNone, renderCell, hn]

lemma cells_zeroToNone (hr si : Bool) :
    ∀ (sizes : List (Option Int)) (suffixes : List String),
      (((sizes.map zeroToNone).zip suffixes).map
        (fun p => " " ++ padRight (renderCell hr si p.1 p.2) 16))
      = ((sizes.zip suffixes).map
        (fun p => " " ++ padRight (renderCell hr si p.1 p.2) 16)) := by
  intro sizes
  induction sizes with
  | nil => intro suffixes; rfl
  | cons s ss ih =>
    intro suffixes
    cases suffixes with
    | nil => rfl
    | cons t ts => simp [List.zip_cons_cons, ih ts, renderCell_zeroToNone]

/-- C8: `print_usage_single` renders a metric value of 0 exactly like a
value of `None`, as the single character `'-'`: replacing every 0 by `None`
in the sizes list leaves the printed line unchanged, so a directory with
zero usage is indistinguishable in the report from one whose aggregate
returned no value. -/
theorem c8_zero_renders_as_none (sizes : List (Option Int)) (identifier : String)
    (human_readable si_units : Bool) (suffixes : List String) (pre : String) :
    print_usage_single (sizes.map zeroToNone) identifier human_readable si_units
        suffixes pre
      = print_usage_single sizes identifier human_readable si_units suffixes pre
    ∧ (∀ (hr2 si2 : Bool) (sfx : String),
        renderCell hr2 si2 (some 0) sfx = "-" ∧ renderCell hr2 si2 none sfx = "-") := by
  constructor
  · unfold print_usage_single
    rw [List.length_map, cells_zeroToNone]
  · intro hr2 si2 sfx
    exact ⟨rfl, rfl⟩

/-- Any error of `query_metrics` is the `NotImplementedError` of an unknown
metric of the list. -/
lemma query_metrics_error (tbl : List Row) (metrics : List String) (patt : String)
    (older newer : Option String) (uidF : Option Int) (e : PyErr)
    (he : query_metrics tbl metrics patt older newer uidF = .error e) :
    ∃ m, m ∈ metrics ∧ m ≠ "size" ∧ m ≠ "inodes" ∧
      e = .notImplementedError ("Unknown metric " ++ m) := by
  induction metrics with
  | nil => exact absurd he (by simp [query_metrics])
  | cons m ms ih =>
    by_cases h1 : m = "size"
    · rw [query_metrics, if_pos h1] at he
      rcases h2 : query_metrics tbl ms patt older newer uidF with e2 | vs
      · rw [h2] at he
        simp only [Except.error.injEq] at he
        rcases ih (by rw [h2, he]) with ⟨x, hx, hxs, hxi, hxe⟩
        exact ⟨x, List.mem_cons_of_mem m hx, hxs, hxi, hxe⟩
      · rw [h2] at he; exact absurd he (by simp)
    · by_cases h2 : m = "inodes"
      · rw [query_metrics, if_neg h1, if_pos h2] at he
        rcases h3 : query_metrics tbl ms patt older newer uidF with e2 | vs
        · rw [h3] at he
          simp only [Except.error.injEq] at he
          rcases ih (by rw [h3, he]) with ⟨x, hx, hxs, hxi, hxe⟩
          exact ⟨x, List.mem_cons_of_mem m hx, hxs, hxi, hxe⟩
        · rw [h3] at he; exact absurd he (by simp)
      · rw [query_metrics, if_neg h1, if_neg h2] at he
        simp only [Except.error.injEq] at he
        exact ⟨m, List.mem_cons_self m ms, h1, h2, he.symm⟩

/-- When every metric is known, the per-user loop returns one tuple per uid
with the aggregates restricted to that uid and the resolved username. -/
lemma userRows_ok (tbl : List Row) (metrics : List String) (patt : String)
    (older newer : Option String) (resolveUser : Int → String)
    (basedir : String) (depth : Int) (uids : List Int)
    (hm : ∀ m ∈ metrics, m = "size" ∨ m = "inodes") :
    userRows tbl metrics patt older newer resolveUser basedir depth uids
      = .ok (uids.map (fun u =>
          mkRow basedir (resolveUser u) depth (aggPure tbl metrics patt older newer (some u)))) := by
  induction uids with
  | nil => rfl
  | cons u us ih =>
    rw [userRows, query_metrics_ok tbl metrics patt older newer (some u) hm, ih]
    rfl

/-- When every metric is known, the directory loop returns, per directory,
the `'ALL'` tuple followed by the per-user tuples. -/
lemma dirRows_ok (tbl : List Row) (metrics : List String)
    (older newer : Option String) (per_user : Bool) (resolveUser : Int → String)
    (depth : Int) (dirs : List String)
    (hm : ∀ m ∈ metrics, m = "size" ∨ m = "inodes") :
    dirRows tbl metrics older newer per_user resolveUser depth dirs
      = .ok (dirs.flatMap (fun b =>
          mkRow b "ALL" depth (aggPure tbl metrics (patternOf b) older newer none) ::
            (if per_user then
              (distinctUids tbl (patternOf b)).map (fun u =>
                mkRow b (resolveUser u) depth
                  (aggPure tbl metrics (patternOf b) older newer (some u)))
            else []))) := by
  induction dirs with
  | nil => rfl
  | cons b bs ih =>
    rw [dirRows, query_metrics_ok tbl metrics (patternOf b) older newer none hm, ih]
    cases per_user with
    | false => rfl
    | true =>
      rw [if_pos rfl,
        userRows_ok tbl metrics (patternOf b) older newer resolveUser b depth
          (distinctUids tbl (patternOf b)) hm]
      rfl

/-- When every metric is known, the depth loop returns the blocks of all
depths in order. -/
lemma depthRows_ok (tbld : List RowD) (tbl : List Row) (metrics : List String)
    (older newer : Option String) (per_user : Bool) (resolveUser : Int → String)
    (top : String) (ds : List Int)
    (hm : ∀ m ∈ metrics, m = "size" ∨ m = "inodes") :
    depthRows tbld tbl metrics older newer per_user resolveUser top ds
      = .ok (ds.flatMap (fun d =>
          (subdirsAt tbld top d).flatMap (fun b =>
            mkRow b "ALL" d (aggPure tbl metrics (patternOf b) older newer none) ::
              (if per_user then
                (distinctUids tbl (patternOf b)).map (fun u =>
                  mkRow b (resolveUser u) d
                    (aggPure tbl metrics (patternOf b) older newer (some u)))
              else [])))) := by
  induction ds with
  | nil => rfl
  | cons d ds ih =>
    rw [depthRows, dirRows_ok tbl metrics older newer per_user resolveUser d
      (subdirsAt tbld top d) hm, ih]
    rfl

/-- When every metric is known, the whole walk succeeds and returns the
results in discovery order, as `specRows` spells them out. -/
lemma duResults_ok (tbl : List Row) (resolveUser : Int → String) (top : String)
    (per_user : Bool) (older newer : Option String) (min_depth max_depth : Int)
    (metrics : List String)
    (hm : ∀ m ∈ metrics, m = "size" ∨ m = "inodes") :
    duResults tbl resolveUser top per_user older newer min_depth max_depth metrics
      = .ok (specRows tbl resolveUser top per_user older newer min_depth max_depth metrics) := by
  unfold duResults specRows
  rw [depthRows_ok (updateDepth top tbl) tbl metrics older newer per_user resolveUser
    top (intRange min_depth max_depth) hm]

/-- Shape of the unknown-metric error, shared by the error-propagation
lemmas below. -/
def unknownMetricErr (metrics : List String) (e : PyErr) : Prop :=
  ∃ m, m ∈ metrics ∧ m ≠ "size" ∧ m ≠ "inodes" ∧
    e = .notImplementedError ("Unknown metric " ++ m)

lemma userRows_error (tbl : List Row) (metrics : List String) (patt : String)
    (older newer : Option String) (resolveUser : Int → String)
    (basedir : String) (depth : Int) (uids : List Int) (e : PyErr)
    (he : userRows tbl metrics patt older newer resolveUser basedir depth uids
      = .error e) :
    unknownMetricErr metrics e := by
  induction uids generalizing e with
  | nil => exact absurd he (by simp [userRows])
  | cons u us ih =>
    rw [userRows] at he
    rcases h1 : query_metrics tbl metrics patt older newer (some u) with e1 | vs
    · rw [h1] at he
      simp only [Except.error.injEq] at he
      rcases query_metrics_error tbl metrics patt older newer (some u) e1 h1 with
        ⟨m, hm, h2, h3, h4⟩
      exact ⟨m, hm, h2, h3, he ▸ h4⟩
    · rw [h1] at he
      rcases h2 : userRows tbl metrics patt older newer resolveUser basedir depth us with
        e2 | rest
      · rw [h2] at he
        simp only [Except.error.injEq] at he
        exact he ▸ ih e2 h2
      · rw [h2] at he; exact absurd he (by simp)

lemma dirRows_error (tbl : List Row) (metrics : List String)
    (older newer : Option String) (per_user : Bool) (resolveUser : Int → String)
    (depth : Int) (dirs : List String) (e : PyErr)
    (he : dirRows tbl metrics older newer per_user resolveUser depth dirs = .error e) :
    unknownMetricErr metrics e := by
  induction dirs generalizing e with
  | nil => exact absurd he (by simp [dirRows])
  | cons b bs ih =>
    rw [dirRows] at he
    rcases h1 : query_metrics tbl metrics (patternOf b) older newer none with e1 | vs
    · rw [h1] at he
      simp only [Except.error.injEq] at he
      rcases query_metrics_error tbl metrics (patternOf b) older newer none e1 h1 with
        ⟨m, hm, h2, h3, h4⟩
      exact ⟨m, hm, h2, h3, he ▸ h4⟩
    · rw [h1] at he
      rcases h2 : (if per_user then
          userRows tbl metrics (patternOf b) older newer resolveUser b depth
            (distinctUids tbl (patternOf b))
        else .ok []) with e2 | urows
      · rw [h2] at he
        simp only [Except.error.injEq] at he
        rcases per_user with _ | _
        · exact absurd h2 (by simp)
        · rw [if_pos rfl] at h2
          exact he ▸ userRows_error tbl metrics (patternOf b) older newer resolveUser
            b depth (distinctUids tbl (patternOf b)) e2 h2
      · rw [h2] at he
        rcases h3 : dirRows tbl metrics older newer per_user resolveUser depth bs with
          e3 | rest
        · rw [h3] at he
          simp only [Except.error.injEq] at he
          exact he ▸ ih e3 h3
        · rw [h3] at he; exact absurd he (by simp)

lemma depthRows_error (tbld : List RowD) (tbl : List Row) (metrics : List String)
    (older newer : Option String) (per_user : Bool) (resolveUser : Int → String)
    (top : String) (ds : List Int) (e : PyErr)
    (he : depthRows tbld tbl metrics older newer per_user resolveUser top ds
      = .error e) :
    unknownMetricErr metrics e := by
  induction ds generalizing e with
  | nil => exact absurd he (by simp [depthRows])
  | cons d ds ih =>
    rw [depthRows] at he
    rcases h1 : dirRows tbl metrics older newer per_user resolveUser d
        (subdirsAt tbld top d) with e1 | block
    · rw [h1] at he
      simp only [Except.error.injEq] at he
      exact he ▸ dirRows_error tbl metrics older newer per_user resolveUser d
        (subdirsAt tbld top d) e1 h1
    · rw [h1] at he
      rcases h2 : depthRows tbld tbl metrics older newer per_user resolveUser top ds with
        e2 | rest
      · rw [h2] at he
        simp only [Except.error.injEq] at he
        exact he ▸ ih e2 h2
      · rw [h2] at he; exact absurd he (by simp)

/-- Any error of the directory walk is the `NotImplementedError` of an
unknown metric. -/
lemma duResults_error (tbl : List Row) (resolveUser : Int → String) (top : String)
    (per_user : Bool) (older newer : Option String) (min_depth max_depth : Int)
    (metrics : List String) (e : PyErr)
    (he : duResults tbl resolveUser top per_user older newer min_depth max_depth metrics
      = .error e) :
    unknownMetricErr metrics e :=
  depthRows_error (updateDepth top tbl) tbl metrics older newer per_user resolveUser
    top (intRange min_depth max_depth) e he

/-- Any error of the up-front column checks is an `AssertionError`. -/
lemma columnsCheck_error_shape (labels : List String) (per_user : Bool)
    (older newer : Option String) (ts : String) (e : PyErr)
    (he : columnsCheck labels per_user older newer ts = .error e) :
    ∃ msg, e = .assertionError msg := by
  unfold columnsCheck at he
  split at he
  · exact ⟨_, (Except.error.inj he).symm⟩
  · split at he
    · exact ⟨_, (Except.error.inj he).symm⟩
    · exact absurd he (by simp)

/-- Any error of the sort-option checks is an `AssertionError`. -/
lemma sortChecks_error_shape (per_user : Bool) (min_depth max_depth : Int)
    (sort_by : List String) (e : PyErr)
    (he : sortChecks per_user min_depth max_depth sort_by = .error e) :
    ∃ msg, e = .assertionError msg := by
  unfold sortChecks at he
  repeat' split at he
  all_goals
    first
      | exact ⟨_, (Except.error.inj he).symm⟩
      | exact absurd he (fun h => Except.noConfusion h)

/-- Any error of the key-table construction (and hence of `sort_list`) is an
`AssertionError`. -/
lemma keysFor_error_shape (columns sortby : List String) (e : PyErr)
    (he : keysFor columns sortby = .error e) :
    ∃ msg, e = .assertionError msg := by
  induction sortby generalizing e with
  | nil => exact absurd he (by simp [keysFor])
  | cons k ks ih =>
    rw [keysFor] at he
    split at he
    · rcases h2 : keysFor columns ks with e2 | rest
      · rw [h2] at he
        exact (Except.error.inj he) ▸ ih e2 h2
      · rw [h2] at he; exact absurd he (by simp)
    · exact ⟨_, (Except.error.inj he).symm⟩

/-- Any error of `sort_list` is the assertion of an unknown sort key or the
`TypeError` of an undefined comparison. -/
lemma sort_list_error_shape (results : List (List Val)) (columns sortby : List String)
    (e : PyErr) (he : sort_list results columns sortby = .error e) :
    (∃ msg, e = .assertionError msg) ∨ (∃ msg, e = .typeError msg) := by
  unfold sort_list at he
  rcases h2 : keysFor columns sortby with e2 | keys
  · rw [h2] at he
    exact .inl ((Except.error.inj he) ▸ keysFor_error_shape columns sortby e2 h2)
  · rw [h2] at he
    by_cases hp : pairsDefined keys results = true
    · simp only [hp, reduceIte] at he
      exact absurd he (by simp)
    · simp only [hp, Bool.false_eq_true, reduceIte] at he
      exact .inr ⟨_, (Except.error.inj he).symm⟩

/-- C4 (amended): the only errors the report pipeline raises are the
`AssertionError`s of the column and sort-option checks, the
`NotImplementedError` that `query_metrics` raises for a metric other than
`'size'` and `'inodes'`, and the `TypeError` that `sorted` raises when two
result rows hold incomparable values at their first differing sort key (for
instance a NULL `sum(size)` against a number).  With `per_user`,
`pwd.getpwuid` can additionally raise `KeyError` for a uid with no
password-database entry; the embedding takes that resolution map as the
total parameter `resolveUser` (see `PyErr`), so the KeyError path is a
stated assumption rather than a disjunct here. -/
theorem c4_report_du_error_kinds (tbl : List Row) (labels : List String)
    (resolveUser : Int → String) (top_directory : String) (per_user : Bool)
    (older_than newer_than : Option String) (max_depth min_depth : Int)
    (metrics : List String) (human_readable si_units : Bool)
    (timestamp_type : String) (suppress_output : Bool) (sort_by : List String)
    (e : PyErr)
    (he : report_du tbl labels resolveUser top_directory per_user older_than
      newer_than max_depth min_depth metrics human_readable si_units
      timestamp_type suppress_output sort_by = .error e) :
    (∃ msg, e = .assertionError msg) ∨ unknownMetricErr metrics e
    ∨ (∃ msg, e = .typeError msg) := by
  unfold report_du at he
  rcases h1 : columnsCheck labels per_user older_than newer_than timestamp_type with
    e1 | u1
  · rw [h1] at he
    exact .inl ((Except.error.inj he) ▸
      columnsCheck_error_shape labels per_user older_than newer_than timestamp_type e1 h1)
  · rw [h1] at he
    rcases h2 : duResults tbl resolveUser top_directory per_user older_than newer_than
        min_depth max_depth metrics with e2 | results
    · rw [h2] at he
      exact .inr (.inl ((Except.error.inj he) ▸
        duResults_error tbl resolveUser top_directory per_user older_than newer_than
          min_depth max_depth metrics e2 h2))
    · rw [h2] at he
      rcases hs : suppress_output with _ | _
      · rw [hs] at he
        simp only [Bool.false_eq_true, if_false, reduceIte] at he
        rcases h3 : sortChecks per_user min_depth max_depth sort_by with e3 | u3
        · rw [h3] at he
          exact .inl ((Except.error.inj he) ▸
            sortChecks_error_shape per_user min_depth max_depth sort_by e3 h3)
        · rw [h3] at he
          rcases sort_list_error_shape results
            (["path", "user", "depth"] ++ metrics) sort_by e he with h4 | h4
          · exact .inl h4
          · exact .inr (.inr h4)
      · rw [hs] at he
        simp at he

/-- Witness for C4: the amended error classification applied at a concrete
run that fails with an unknown metric. -/
theorem c4_witness :
    (∃ msg, PyErr.notImplementedError "Unknown metric foo" = .assertionError msg)
    ∨ unknownMetricErr ["foo"] (PyErr.notImplementedError "Unknown metric foo")
    ∨ (∃ msg, PyErr.notImplementedError "Unknown metric foo" = .typeError msg) :=
  c4_report_du_error_kinds [rowA, rowAB] ["path", "is_dir", "size"] sampleUser
    "" false none none 1 0 ["foo"] false false "atime" true []
    (PyErr.notImplementedError "Unknown metric foo") (by decide)

/-- Counterexample to C4 as stated: `report_du` on a well-formed index with
the metrics list `["foo"]` raises `NotImplementedError`, and with the
default sort keys and unsuppressed output a directory whose `sum(size)` is
NULL next to one with a numeric sum makes the sort raise `TypeError`
(`None < 5` inside the comparator); neither is a required-column assertion
nor sort-option validation. -/
theorem c4_counterexample :
    report_du [rowA, rowAB] ["path", "is_dir", "size"] sampleUser
        "" false none none 1 0 ["foo"] false false "atime" true []
      = .error (.notImplementedError "Unknown metric foo")
    ∧ report_du [rowN, rowA] ["path", "is_dir", "size"] sampleUser
        "" false none none 1 0 ["size"] false false "atime" false ["depth", "size"]
      = .error (.typeError "unsupported comparison between result values")
    ∧ (∀ msg, PyErr.notImplementedError "Unknown metric foo" ≠ .assertionError msg)
    ∧ (∀ msg, PyErr.typeError "unsupported comparison between result values"
        ≠ .assertionError msg) :=
  ⟨by decide, by decide, fun _ h => PyErr.noConfusion h, fun _ h => PyErr.noConfusion h⟩

/-- A missing required column makes the up-front checks raise an
`AssertionError`. -/
lemma columnsCheck_error_of_missing (labels : List String) (per_user : Bool)
    (older newer : Option String) (ts : String)
    (h : ∃ c ∈ reqCols per_user older newer ts, c ∉ labels) :
    ∃ msg, columnsCheck labels per_user older newer ts = .error (.assertionError msg) := by
  unfold columnsCheck
  by_cases ht : ((truthy older || truthy newer) && ts == "") = true
  · rw [if_pos ht]; exact ⟨_, rfl⟩
  · rw [if_neg ht]
    rcases h with ⟨c, hc, hcl⟩
    have hfind : (((reqCols per_user older newer ts)).find?
        (fun l => !(labels.contains l))).isSome :=
      List.find?_isSome.2 ⟨c, hc, by simpa using hcl⟩
    rcases Option.isSome_iff_exists.mp hfind with ⟨l, hl⟩
    rw [hl]
    exact ⟨_, rfl⟩

/-- A violated sort-option condition makes the pre-sort checks raise an
`AssertionError`. -/
lemma sortChecks_error_of_violation (per_user : Bool) (min_depth max_depth : Int)
    (sort_by : List String)
    (h : ("user" ∈ sort_by ∧ (per_user = false ∨ min_depth ≠ 0 ∨ min_depth ≠ max_depth))
       ∨ ("user" ∉ sort_by ∧ per_user = true ∧ "depth" ∉ sort_by)) :
    ∃ msg, sortChecks per_user min_depth max_depth sort_by
      = .error (.assertionError msg) := by
  unfold sortChecks
  rcases h with ⟨hu, hviol⟩ | ⟨hu, hp, hd⟩
  · rw [if_pos (by simpa using hu)]
    rcases hviol with hp | h0 | hmm
    · rw [hp]; exact ⟨_, rfl⟩
    · cases hpb : per_user with
      | false => exact ⟨_, rfl⟩
      | true =>
        rw [if_neg (by simp), if_pos (by simpa using h0)]
        exact ⟨_, rfl⟩
    · cases hpb : per_user with
      | false => exact ⟨_, rfl⟩
      | true =>
        rw [if_neg (by simp)]
        by_cases h0 : min_depth = 0
        · rw [if_neg (by simpa using h0), if_pos (by simpa [h0] using hmm)]
          exact ⟨_, rfl⟩
        · rw [if_pos (by simpa using h0)]
          exact ⟨_, rfl⟩
  · rw [if_neg (by simpa using hu), hp, if_pos rfl, if_neg (by simpa using hd)]
    exact ⟨_, rfl⟩

/-- C5: `report_du` raises `AssertionError` when any of the columns `path`,
`is_dir`, `size` is absent from the index file's columns, additionally
requiring `uid` when `per_user` and the `timestamp_type` column when
`older_than` or `newer_than` is given; and, when output is not suppressed
(and the walk itself raises nothing, i.e. the metrics are known), it raises
`AssertionError` when `'user'` is in `sort_by` but `per_user` is false or
`min_depth` differs from 0 or from `max_depth`, and when `per_user` is true
but neither `'user'` nor `'depth'` is in `sort_by`. -/
theorem c5_assertion_conditions (tbl : List Row) (labels : List String)
    (resolveUser : Int → String) (top_directory : String) (per_user : Bool)
    (older_than newer_than : Option String) (max_depth min_depth : Int)
    (metrics : List String) (human_readable si_units : Bool)
    (timestamp_type : String) (suppress_output : Bool) (sort_by : List String) :
    ((∃ c ∈ reqCols per_user older_than newer_than timestamp_type, c ∉ labels) →
      ∃ msg, report_du tbl labels resolveUser top_directory per_user older_than
          newer_than max_depth min_depth metrics human_readable si_units
          timestamp_type suppress_output sort_by = .error (.assertionError msg))
    ∧ (suppress_output = false →
       (∀ m ∈ metrics, m = "size" ∨ m = "inodes") →
       (("user" ∈ sort_by ∧
          (per_user = false ∨ min_depth ≠ 0 ∨ min_depth ≠ max_depth))
        ∨ ("user" ∉ sort_by ∧ per_user = true ∧ "depth" ∉ sort_by)) →
      ∃ msg, report_du tbl labels resolveUser top_directory per_user older_than
          newer_than max_depth min_depth metrics human_readable si_units
          timestamp_type suppress_output sort_by = .error (.assertionError msg)) := by
  constructor
  · intro h
    rcases columnsCheck_error_of_missing labels per_user older_than newer_than
      timestamp_type h with ⟨msg, hcc⟩
    exact ⟨msg, by unfold report_du; rw [hcc]⟩
  · intro hs hm hviol
    rcases hcc : columnsCheck labels per_user older_than newer_than timestamp_type with
      ecc | u
    · rcases columnsCheck_error_shape labels per_user older_than newer_than
        timestamp_type ecc hcc with ⟨msg, rfl⟩
      exact ⟨msg, by unfold report_du; rw [hcc]⟩
    · rcases sortChecks_error_of_violation per_user min_depth max_depth sort_by hviol
        with ⟨msg, hsc⟩
      refine ⟨msg, ?_⟩
      unfold report_du
      rw [hcc, duResults_ok tbl resolveUser top_directory per_user older_than
        newer_than min_depth max_depth metrics hm, hs]
      simp only [Bool.false_eq_true, if_false, reduceIte]
      rw [hsc]

/-- Witness for C5: a concrete run whose index lacks the `size` column. -/
theorem c5_witness :
    ∃ msg, report_du [rowA, rowAB] ["path", "is_dir"] sampleUser
        "" false none none 1 0 ["size"] false false "atime" true []
      = .error (.assertionError msg) :=
  (c5_assertion_conditions [rowA, rowAB] ["path", "is_dir"] sampleUser
    "" false none none 1 0 ["size"] false false "atime" true []).1
    ⟨"size", by decide, by decide⟩

/-- C7: when `per_user` is true, for every directory reported by `report_du`
the results list contains, besides the row labelled `'ALL'`, one row per
distinct uid occurring among index entries whose path matches the
directory's pattern, whose metric values are the aggregates restricted to
that uid and whose user field is the username resolved for that uid (the
suppressed-output run returns them in discovery order; the sorted run is a
permutation of the same list). -/
theorem c7_per_user_breakdown (tbl : List Row) (labels : List String)
    (resolveUser : Int → String) (top_directory : String)
    (older_than newer_than : Option String) (max_depth min_depth : Int)
    (metrics : List String) (human_readable si_units : Bool)
    (timestamp_type : String) (sort_by : List String)
    (hm : ∀ m ∈ metrics, m = "size" ∨ m = "inodes")
    (hcols : columnsCheck labels true older_than newer_than timestamp_type = .ok ()) :
    report_du tbl labels resolveUser top_directory true older_than newer_than
        max_depth min_depth metrics human_readable si_units timestamp_type true sort_by
      = .ok ((intRange min_depth max_depth).flatMap (fun d =>
          (subdirsAt (updateDepth top_directory tbl) top_directory d).flatMap (fun b =>
            mkRow b "ALL" d (aggPure tbl metrics (patternOf b) older_than newer_than none)
              :: (distinctUids tbl (patternOf b)).map (fun u =>
                mkRow b (resolveUser u) d
                  (aggPure tbl metrics (patternOf b) older_than newer_than (some u)))))) := by
  unfold report_du
  rw [hcols, duResults_ok tbl resolveUser top_directory true older_than newer_than
    min_depth max_depth metrics hm]
  simp [specRows]

/-- Witness for C7: the concrete per-user breakdown of a three-row index
with two owners. -/
theorem c7_witness :
    report_du [rowA, rowAB, rowAC] ["path", "is_dir", "size", "uid"] sampleUser
        "" true none none 1 0 ["size"] false false "atime" true []
      = .ok [[.vstr "a", .vstr "ALL", .vint 1, .vint 19],
             [.vstr "a", .vstr "alice", .vint 1, .vint 14],
             [.vstr "a", .vstr "bob", .vint 1, .vint 5]] :=
  (c7_per_user_breakdown [rowA, rowAB, rowAC] ["path", "is_dir", "size", "uid"]
    sampleUser "" none none 1 0 ["size"] false false "atime" []
    (by decide) (by decide)).trans (by decide)

/-- C9: when `suppress_output` is true, `report_du` performs neither the
sort-option assertions nor the sort: for every value of `sort_by` the
returned value is identical, and (when the walk succeeds) it is the results
list in discovery order — increasing depth, directories in query order, each
`'ALL'` row before its per-user rows — as `specRows` spells out. -/
theorem c9_suppressed_sort_independent (tbl : List Row) (labels : List String)
    (resolveUser : Int → String) (top_directory : String) (per_user : Bool)
    (older_than newer_than : Option String) (max_depth min_depth : Int)
    (metrics : List String) (human_readable si_units : Bool)
    (timestamp_type : String) (sb1 sb2 : List String) :
    report_du tbl labels resolveUser top_directory per_user older_than newer_than
        max_depth min_depth metrics human_readable si_units timestamp_type true sb1
      = report_du tbl labels resolveUser top_directory per_user older_than newer_than
        max_depth min_depth metrics human_readable si_units timestamp_type true sb2
    ∧ ((∀ m ∈ metrics, m = "size" ∨ m = "inodes") →
       columnsCheck labels per_user older_than newer_than timestamp_type = .ok () →
       report_du tbl labels resolveUser top_directory per_user older_than newer_than
           max_depth min_depth metrics human_readable si_units timestamp_type true sb1
         = .ok (specRows tbl resolveUser top_directory per_user older_than newer_than
             min_depth max_depth metrics)) := by
  constructor
  · unfold report_du
    rcases hcc : columnsCheck labels per_user older_than newer_than timestamp_type with
      e | u
    · rfl
    · rcases hdu : duResults tbl resolveUser top_directory per_user older_than
          newer_than min_depth max_depth metrics with e | r
      · rfl
      · rfl
  · intro hm hcols
    unfold report_du
    rw [hcols, duResults_ok tbl resolveUser top_directory per_user older_than newer_than
      min_depth max_depth metrics hm]
    rfl

/-- Witness for C9: two different sort keys give the same suppressed-output
result on a concrete index. -/
theorem c9_witness :
    report_du [rowA, rowAB] ["path", "is_dir", "size"] sampleUser
        "" false none none 1 0 ["size"] false false "atime" true ["depth", "size"]
      = report_du [rowA, rowAB] ["path", "is_dir", "size"] sampleUser
        "" false none none 1 0 ["size"] false false "atime" true ["user"] :=
  (c9_suppressed_sort_independent [rowA, rowAB] ["path", "is_dir", "size"] sampleUser
    "" false none none 1 0 ["size"] false false "atime" ["depth", "size"] ["user"]).1

lemma valLt_asymm (x y : Val) (h : Val.lt x y = true) : Val.lt y x = false := by
  cases x with
  | vstr a =>
    cases y with
    | vstr b =>
      simp only [Val.lt, decide_eq_true_eq] at h
      simp only [Val.lt, decide_eq_false_iff_not]
      exact not_lt.2 (le_of_lt h)
    | vint b => exact absurd h (by simp [Val.lt])
    | vnull => exact absurd h (by simp [Val.lt])
  | vint a =>
    cases y with
    | vint b =>
      simp only [Val.lt, decide_eq_true_eq] at h
      simp only [Val.lt, decide_eq_false_iff_not]
      exact not_lt.2 (le_of_lt h)
    | vstr b => exact absurd h (by simp [Val.lt])
    | vnull => exact absurd h (by simp [Val.lt])
  | vnull => exact absurd h (by simp [Val.lt])

lemma valLt_le_trans (x y z : Val)
    (ht : ((∃ n, x = Val.vint n) ∧ (∃ n, y = Val.vint n) ∧ (∃ n, z = Val.vint n))
        ∨ ((∃ s, x = Val.vstr s) ∧ (∃ s, y = Val.vstr s) ∧ (∃ s, z = Val.vstr s)))
    (h1 : Val.lt y x = false) (h2 : Val.lt z y = false) : Val.lt z x = false := by
  rcases ht with ⟨⟨a, rfl⟩, ⟨b, rfl⟩, ⟨c, rfl⟩⟩ | ⟨⟨a, rfl⟩, ⟨b, rfl⟩, ⟨c, rfl⟩⟩ <;>
    (simp only [Val.lt, decide_eq_false_iff_not] at h1 h2 ⊢
     exact not_lt.2 (le_trans (not_lt.1 h1) (not_lt.1 h2)))

lemma valLt_antisymm (x y : Val)
    (ht : ((∃ n, x = Val.vint n) ∧ (∃ n, y = Val.vint n))
        ∨ ((∃ s, x = Val.vstr s) ∧ (∃ s, y = Val.vstr s)))
    (h1 : Val.lt x y = false) (h2 : Val.lt y x = false) : x = y := by
  rcases ht with ⟨⟨a, rfl⟩, ⟨b, rfl⟩⟩ | ⟨⟨a, rfl⟩, ⟨b, rfl⟩⟩ <;>
    (simp only [Val.lt, decide_eq_false_iff_not] at h1 h2
     simp only [Val.vint.injEq, Val.vstr.injEq]
     exact le_antisymm (not_lt.1 h2) (not_lt.1 h1))

lemma keyLt_asymm (keys : List (ℕ × Bool)) :
    ∀ a b, keyLt keys a b = true → keyLt keys b a = false := by
  induction keys with
  | nil => intro a b h; exact absurd h (by simp [keyLt])
  | cons p ks ih =>
    obtain ⟨i, rev⟩ := p
    intro a b h
    rw [keyLt] at h ⊢
    by_cases e : a.getD i Val.vnull = b.getD i Val.vnull
    · rw [if_pos e] at h
      rw [if_pos e.symm]
      exact ih a b h
    · rw [if_neg e] at h
      rw [if_neg (fun h2 => e h2.symm)]
      cases rev with
      | false =>
        simp only [Bool.false_eq_true, if_false, reduceIte] at h ⊢
        exact valLt_asymm _ _ h
      | true =>
        simp only [if_true, reduceIte] at h ⊢
        exact valLt_asymm _ _ h

lemma keyLt_negtrans (keys : List (ℕ × Bool)) (rows : List (List Val))
    (ht : wellTyped rows keys) :
    ∀ a b c, a ∈ rows → b ∈ rows → c ∈ rows →
      keyLt keys b a = false → keyLt keys c b = false → keyLt keys c a = false := by
  induction keys with
  | nil => intro a b c _ _ _ _ _; rfl
  | cons p ks ih =>
    intro a b c ha hb hc hba hcb
    obtain ⟨i, rev⟩ := p
    have hcol : colTyped rows i := ht (i, rev) (List.mem_cons_self _ _)
    have hks : wellTyped rows ks := fun q hq => ht q (List.mem_cons_of_mem _ hq)
    have htyt :
        ((∃ n, a.getD i Val.vnull = Val.vint n) ∧ (∃ n, b.getD i Val.vnull = Val.vint n)
          ∧ (∃ n, c.getD i Val.vnull = Val.vint n))
        ∨ ((∃ s, a.getD i Val.vnull = Val.vstr s) ∧ (∃ s, b.getD i Val.vnull = Val.vstr s)
          ∧ (∃ s, c.getD i Val.vnull = Val.vstr s)) := by
      rcases hcol with h | h
      · exact .inl ⟨h a ha, h b hb, h c hc⟩
      · exact .inr ⟨h a ha, h b hb, h c hc⟩
    rw [keyLt] at hba hcb ⊢
    by_cases e1 : b.getD i Val.vnull = a.getD i Val.vnull
    · rw [if_pos e1] at hba
      by_cases e2 : c.getD i Val.vnull = b.getD i Val.vnull
      · rw [if_pos e2] at hcb
        rw [if_pos (e2.trans e1)]
        exact ih hks a b c ha hb hc hba hcb
      · rw [if_neg e2] at hcb
        rw [if_neg (fun h => e2 (h.trans e1.symm)), ← e1]
        exact hcb
    · rw [if_neg e1] at hba
      by_cases e2 : c.getD i Val.vnull = b.getD i Val.vnull
      · rw [if_neg (fun h => e1 (e2.symm.trans h)), e2]
        exact hba
      · rw [if_neg e2] at hcb
        by_cases e3 : c.getD i Val.vnull = a.getD i Val.vnull
        · exfalso
          apply e1
          cases rev with
          | false =>
            simp only [Bool.false_eq_true, if_false, reduceIte] at hba hcb
            refine valLt_antisymm _ _ ?_ hba (e3 ▸ hcb)
            rcases htyt with ⟨hA, hB, _⟩ | ⟨hA, hB, _⟩
            · exact .inl ⟨hB, hA⟩
            · exact .inr ⟨hB, hA⟩
          | true =>
            simp only [if_true, reduceIte] at hba hcb
            refine valLt_antisymm _ _ ?_ (e3 ▸ hcb) hba
            rcases htyt with ⟨hA, hB, _⟩ | ⟨hA, hB, _⟩
            · exact .inl ⟨hB, hA⟩
            · exact .inr ⟨hB, hA⟩
        · rw [if_neg e3]
          cases rev with
          | false =>
            simp only [Bool.false_eq_true, if_false, reduceIte] at hba hcb ⊢
            refine valLt_le_trans _ _ _ ?_ hba hcb
            rcases htyt with ⟨hA, hB, hC⟩ | ⟨hA, hB, hC⟩
            · exact .inl ⟨hA, hB, hC⟩
            · exact .inr ⟨hA, hB, hC⟩
          | true =>
            simp only [if_true, reduceIte] at hba hcb ⊢
            refine valLt_le_trans _ _ _ ?_ hcb hba
            rcases htyt with ⟨hA, hB, hC⟩ | ⟨hA, hB, hC⟩
            · exact .inl ⟨hC, hB, hA⟩
            · exact .inr ⟨hC, hB, hA⟩

lemma mem_insertLt (lt : List Val → List Val → Bool) (x : List Val) :
    ∀ l y, y ∈ insertLt lt x l → y = x ∨ y ∈ l := by
  intro l
  induction l with
  | nil =>
    intro y hy
    simp [insertLt] at hy
    exact .inl hy
  | cons z zs ih =>
    intro y hy
    rw [insertLt] at hy
    by_cases h : lt z x = true
    · rw [if_pos h] at hy
      rcases List.mem_cons.1 hy with rfl | hy2
      · exact .inr (List.mem_cons_self _ _)
      · rcases ih y hy2 with h1 | h2
        · exact .inl h1
        · exact .inr (List.mem_cons_of_mem _ h2)
    · rw [if_neg h] at hy
      rcases List.mem_cons.1 hy with rfl | hy2
      · exact .inl rfl
      · exact .inr hy2

lemma insertLt_perm (lt : List Val → List Val → Bool) (x : List Val) :
    ∀ l, (insertLt lt x l).Perm (x :: l) := by
  intro l
  induction l with
  | nil => exact List.Perm.refl _
  | cons z zs ih =>
    rw [insertLt]
    by_cases h : lt z x = true
    · rw [if_pos h]
      exact (ih.cons z).trans (List.Perm.swap x z zs)
    · rw [if_neg h]

lemma sortLt_perm (lt : List Val → List Val → Bool) :
    ∀ l, (sortLt lt l).Perm l := by
  intro l
  induction l with
  | nil => exact List.Perm.refl _
  | cons x xs ih =>
    rw [sortLt]
    exact (insertLt_perm lt x (sortLt lt xs)).trans (ih.cons x)

lemma pairwise_insertLt (lt : List Val → List Val → Bool) (P : List Val → Prop)
    (hasymm : ∀ a b, lt a b = true → lt b a = false)
    (htrans : ∀ a b c, P a → P b → P c →
      lt b a = false → lt c b = false → lt c a = false)
    (x : List Val) (hx : P x) :
    ∀ l, (∀ y ∈ l, P y) → l.Pairwise (fun a b => lt b a = false) →
      (insertLt lt x l).Pairwise (fun a b => lt b a = false) := by
  intro l
  induction l with
  | nil => intro _ _; simp [insertLt]
  | cons z zs ih =>
    intro hl hp
    rcases List.pairwise_cons.1 hp with ⟨hz, hzs⟩
    rw [insertLt]
    by_cases h : lt z x = true
    · rw [if_pos h]
      refine List.pairwise_cons.2
        ⟨?_, ih (fun y hy => hl y (List.mem_cons_of_mem _ hy)) hzs⟩
      intro y hy
      rcases mem_insertLt lt x zs y hy with rfl | hy2
      · exact hasymm z y h
      · exact hz y hy2
    · rw [if_neg h]
      refine List.pairwise_cons.2 ⟨?_, hp⟩
      intro y hy
      rcases List.mem_cons.1 hy with rfl | hy2
      · simpa using h
      · exact htrans x z y hx (hl z (List.mem_cons_self _ _))
          (hl y (List.mem_cons_of_mem _ hy2)) (by simpa using h) (hz y hy2)

lemma pairwise_sortLt (lt : List Val → List Val → Bool) (P : List Val → Prop)
    (hasymm : ∀ a b, lt a b = true → lt b a = false)
    (htrans : ∀ a b c, P a → P b → P c →
      lt b a = false → lt c b = false → lt c a = false) :
    ∀ l, (∀ y ∈ l, P y) → (sortLt lt l).Pairwise (fun a b => lt b a = false) := by
  intro l
  induction l with
  | nil => intro _; simp [sortLt]
  | cons x xs ih =>
    intro hl
    rw [sortLt]
    exact pairwise_insertLt lt P hasymm htrans x (hl x (List.mem_cons_self _ _))
      (sortLt lt xs)
      (fun y hy => hl y (List.mem_cons_of_mem _ ((sortLt_perm lt xs).subset hy)))
      (ih (fun y hy => hl y (List.mem_cons_of_mem _ hy)))

lemma keysFor_error_of_bad (columns sortby : List String)
    (h : ∃ k ∈ sortby, k ∉ columns) :
    ∃ msg, keysFor columns sortby = .error (.assertionError msg) := by
  induction sortby with
  | nil => rcases h with ⟨k, hk, _⟩; simp at hk
  | cons k ks ih =>
    rw [keysFor]
    by_cases hc : columns.contains k = true
    · rw [if_pos hc]
      have h2 : ∃ k2 ∈ ks, k2 ∉ columns := by
        rcases h with ⟨k2, hk2, hnot⟩
        rcases List.mem_cons.1 hk2 with rfl | hmem
        · exact absurd (by simpa using hc) hnot
        · exact ⟨k2, hmem, hnot⟩
      rcases ih h2 with ⟨msg, hmsg⟩
      rw [hmsg]
      exact ⟨msg, rfl⟩
    · rw [if_neg hc]
      exact ⟨_, rfl⟩

/-- On a well-typed column, any two rows are comparable at the first key
where they differ. -/
lemma keyCmpDefined_of_wellTyped (keys : List (ℕ × Bool)) (rows : List (List Val))
    (a b : List Val) (ha : a ∈ rows) (hb : b ∈ rows) (ht : wellTyped rows keys) :
    keyCmpDefined keys a b = true := by
  induction keys with
  | nil => rfl
  | cons p ks ih =>
    obtain ⟨i, rev⟩ := p
    have hcol : colTyped rows i := ht (i, rev) (List.mem_cons_self _ _)
    have hks : wellTyped rows ks := fun q hq => ht q (List.mem_cons_of_mem _ hq)
    rw [keyCmpDefined]
    by_cases e : a.getD i Val.vnull = b.getD i Val.vnull
    · rw [if_pos e]
      exact ih hks
    · rw [if_neg e]
      rcases hcol with h | h
      · obtain ⟨na, hna⟩ := h a ha
        obtain ⟨nb, hnb⟩ := h b hb
        rw [hna, hnb]
      · obtain ⟨sa, hsa⟩ := h a ha
        obtain ⟨sb, hsb⟩ := h b hb
        rw [hsa, hsb]

/-- On well-typed sort-key columns every pair is comparable, so Python's
`sorted` performs no undefined comparison. -/
lemma pairsDefined_of_wellTyped (keys : List (ℕ × Bool)) (rows : List (List Val))
    (ht : wellTyped rows keys) : pairsDefined keys rows = true := by
  suffices h : ∀ l : List (List Val), (∀ r ∈ l, r ∈ rows) → pairsDefined keys l = true from
    h rows (fun r hr => hr)
  intro l
  induction l with
  | nil => intro _; rfl
  | cons r rs ih =>
    intro hsub
    rw [pairsDefined, Bool.and_eq_true]
    refine ⟨List.all_eq_true.2 (fun s hs => ?_), ih (fun x hx => hsub x (List.mem_cons_of_mem _ hx))⟩
    exact keyCmpDefined_of_wellTyped keys rows r s (hsub r (List.mem_cons_self _ _))
      (hsub s (List.mem_cons_of_mem _ hs)) ht

/-- C3: `DUDB.sort_list` raises `AssertionError` when a sortby key is not
among the column names; otherwise (on rows whose sort-key columns hold
values of a single comparable type each, the case in which Python's `sorted`
is defined) it returns a permutation of the input that is ordered
lexicographically by the sortby keys in priority order, descending for the
keys `'size'` and `'inodes'` (`reversor`) and ascending for every other key
(`versor`). -/
theorem c3_sort_list_sorts (results : List (List Val)) (columns sortby : List String) :
    ((∃ k ∈ sortby, k ∉ columns) →
      ∃ msg, sort_list results columns sortby = .error (.assertionError msg))
    ∧ (∀ keys, keysFor columns sortby = .ok keys → wellTyped results keys →
        ∃ out, sort_list results columns sortby = .ok out ∧ results.Perm out ∧
          out.Pairwise (fun a b => keyLt keys b a = false)) := by
  constructor
  · intro h
    rcases keysFor_error_of_bad columns sortby h with ⟨msg, hk⟩
    exact ⟨msg, by unfold sort_list; rw [hk]⟩
  · intro keys hk ht
    refine ⟨sortLt (keyLt keys) results,
      by unfold sort_list; rw [hk]; simp only [pairsDefined_of_wellTyped keys results ht, reduceIte],
      (sortLt_perm (keyLt keys) results).symm, ?_⟩
    exact pairwise_sortLt (keyLt keys) (fun r => r ∈ results) (keyLt_asymm keys)
      (keyLt_negtrans keys results ht) results (fun y hy => hy)

/-- Witness for C3: sorting three concrete result tuples by `size`
descending. -/
theorem c3_witness :
    ∃ out, sort_list [[Val.vstr "a", Val.vint 5], [Val.vstr "b", Val.vint 9],
        [Val.vstr "c", Val.vint 7]] ["path", "size"] ["size"] = .ok out ∧
      ([[Val.vstr "a", Val.vint 5], [Val.vstr "b", Val.vint 9],
        [Val.vstr "c", Val.vint 7]] : List (List Val)).Perm out ∧
      out.Pairwise (fun a b => keyLt [(1, true)] b a = false) :=
  (c3_sort_list_sorts [[Val.vstr "a", Val.vint 5], [Val.vstr "b", Val.vint 9],
      [Val.vstr "c", Val.vint 7]] ["path", "size"] ["size"]).2 [(1, true)]
    (by decide)
    (by
      intro p hp
      rcases List.mem_singleton.mp hp with rfl
      exact .inl (by intro r hr; fin_cases hr <;> exact ⟨_, rfl⟩))

end Duduckdb
